import Mathlib

/-!
# Verification of the `doru` task-tracking core

Shallow embedding of the repository's in-memory task manager
(`src/todo.rs`, `src/todo_manager.rs`) and of its JSON storage collaborator
(`src/storage/json_storage.rs`, `src/storage/todo_storage.rs`), together
with theorems settling the specification's claims about them.

Modelling conventions:
* Rust `usize` is embedded as `Nat`; the single arithmetic operation of the
  core, `id_counter += 1`, is taken with an explicit `% 2 ^ 64` so that the
  wraparound of a 64-bit counter is visible (release-profile Rust semantics;
  a debug build would abort at the same input instead of wrapping — either
  way the behaviour at `usize::MAX` differs from an unbounded counter).
* `Vec<Todo>` becomes `List Todo`; `&mut self` methods become functions from
  the manager to a pair of the new manager and the Rust return value, with
  `Result<(), TodoError>` embedded as `Except TodoError Unit`.
* The file system seen by the storage code is a single location modelled as
  `Option String`: `none` when no file exists at the path, `some contents`
  otherwise.
-/

/-- Modulus of the Rust `usize` type on the 64-bit targets the crate builds
for; `id_counter += 1` wraps here under release-profile semantics. -/
def USIZE : Nat := 2 ^ 64

/-- `TodoStatus` from `src/todo.rs`. -/
inductive TodoStatus
  | Open
  | InProgress
  | Done
deriving DecidableEq

/-- `Todo` from `src/todo.rs`: a private `id` (read through `Todo::id()`),
a public `content` and a public `status`. -/
structure Todo where
  id : Nat
  content : String
  status : TodoStatus
deriving DecidableEq

/-- `Todo::new`: the given id and content, status always `Open`. -/
def Todo.new (id : Nat) (content : String) : Todo :=
  { id := id, content := content, status := TodoStatus.Open }

/-- `TodoError` from `src/lib.rs`. -/
inductive TodoError
  | NotFound (id : Nat)
deriving DecidableEq

/-- `TodoManager` from `src/todo_manager.rs`. -/
structure TodoManager where
  id_counter : Nat
  todos : List Todo
deriving DecidableEq

/-- `TodoManager::default()`: `usize` and `Vec` defaults, so counter 0 and an
empty collection. -/
def TodoManager.default : TodoManager :=
  { id_counter := 0, todos := [] }

/-- `TodoManager::new`: adopts the given todos and sets the counter to
`todos.iter().map(|todo| todo.id()).max().unwrap_or(0)`. -/
def TodoManager.new (todos : List Todo) : TodoManager :=
  { id_counter := ((todos.map Todo.id).max?).getD 0, todos := todos }

/-- `TodoManager::add_todo`: increments the counter (wrapping `usize`
arithmetic), pushes `Todo::new(id_counter, content)` and returns
`self.todos.last().unwrap().id()` (the push makes the vector non-empty, so
the `unwrap` cannot abort). -/
def TodoManager.add_todo (m : TodoManager) (content : String) : TodoManager × Nat :=
  ({ id_counter := (m.id_counter + 1) % USIZE,
     todos := m.todos ++ [Todo.new ((m.id_counter + 1) % USIZE) content] },
   ((m.todos ++ [Todo.new ((m.id_counter + 1) % USIZE) content]).getLast (by simp)).id)

/-- `TodoManager::all_todos`: `self.todos.iter().collect()`. -/
def TodoManager.all_todos (m : TodoManager) : List Todo :=
  m.todos

/-- `TodoManager::todo_by_id`: `self.todos.iter().find(|todo| todo.id() == id)`. -/
def TodoManager.todo_by_id (m : TodoManager) (id : Nat) : Option Todo :=
  m.todos.find? (fun t => t.id == id)

/-- `TodoManager::todos_by_status`: `iter().filter(|todo| todo.status == status)`. -/
def TodoManager.todos_by_status (m : TodoManager) (status : TodoStatus) : List Todo :=
  m.todos.filter (fun t => t.status == status)

/-- First-match in-place mutation, mirroring `iter_mut().find(|todo| p todo)`
followed by a field assignment through the mutable reference: `none` when no
element matches, otherwise the list with exactly the first match rewritten. -/
def updateFirst (p : Todo → Bool) (f : Todo → Todo) : List Todo → Option (List Todo)
  | [] => none
  | t :: ts =>
    if p t then some (f t :: ts)
    else (updateFirst p f ts).map (fun r => t :: r)

/-- `TodoManager::edit_todo_content`: rewrites `content` of the first task
with the given id, or fails with `NotFound(id)` leaving the state as it was. -/
def TodoManager.edit_todo_content (m : TodoManager) (id : Nat) (content : String) :
    TodoManager × Except TodoError Unit :=
  match updateFirst (fun t => t.id == id) (fun t => { t with content := content }) m.todos with
  | some todos => ({ id_counter := m.id_counter, todos := todos }, Except.ok ())
  | none => (m, Except.error (TodoError.NotFound id))

/-- `TodoManager::change_todo_status`: rewrites `status` of the first task
with the given id, or fails with `NotFound(id)` leaving the state as it was. -/
def TodoManager.change_todo_status (m : TodoManager) (id : Nat) (state : TodoStatus) :
    TodoManager × Except TodoError Unit :=
  match updateFirst (fun t => t.id == id) (fun t => { t with status := state }) m.todos with
  | some todos => ({ id_counter := m.id_counter, todos := todos }, Except.ok ())
  | none => (m, Except.error (TodoError.NotFound id))

/-- `TodoManager::delete_todo`: `iter().position(...)` then `Vec::remove`,
or `NotFound(id)` leaving the state as it was. -/
def TodoManager.delete_todo (m : TodoManager) (id : Nat) :
    TodoManager × Except TodoError Unit :=
  match m.todos.findIdx? (fun t => t.id == id) with
  | some position =>
    ({ id_counter := m.id_counter, todos := m.todos.eraseIdx position }, Except.ok ())
  | none => (m, Except.error (TodoError.NotFound id))

/-- A driver-level mutation against the manager; `add` and `delete` are the
two operations the id-freshness claims quantify over. -/
inductive TodoOp
  | add (content : String)
  | delete (id : Nat)

/-- Run one operation, keeping the id an `add` returns. -/
def TodoManager.runOp (m : TodoManager) : TodoOp → TodoManager × Option Nat
  | TodoOp.add content => ((m.add_todo content).1, some (m.add_todo content).2)
  | TodoOp.delete id => ((m.delete_todo id).1, none)

/-- Run a sequence of operations from a state, collecting every id returned
by an `add` in order. -/
def TodoManager.runOps (m : TodoManager) : List TodoOp → TodoManager × List Nat
  | [] => (m, [])
  | op :: ops =>
    (((m.runOp op).1.runOps ops).1,
     (m.runOp op).2.toList ++ ((m.runOp op).1.runOps ops).2)

/-- Number of `add` operations in a driver sequence. -/
def countAdds : List TodoOp → Nat
  | [] => 0
  | TodoOp.add _ :: ops => countAdds ops + 1
  | TodoOp.delete _ :: ops => countAdds ops

/-- `TodoStorageError` from `src/storage/todo_storage.rs`, with `PathBuf`
embedded as `String`. -/
inductive TodoStorageError
  | FileError (path : String)
  | ParseError (path : String)
  | SerializeError
deriving DecidableEq

/-- serde's name for a `TodoStatus` variant; the derived `Debug` impl prints
the same bare variant name. -/
def statusName : TodoStatus → String
  | TodoStatus.Open => "Open"
  | TodoStatus.InProgress => "InProgress"
  | TodoStatus.Done => "Done"

/-- Decimal digits of a positive `n`, most significant first. Fuel-based so
that the kernel can evaluate it; any `fuel ≥ n` gives the digits of `n`. -/
def toDecimalAux : Nat → Nat → List Char
  | 0, _ => []
  | _ + 1, 0 => []
  | fuel + 1, n + 1 =>
    toDecimalAux fuel ((n + 1) / 10) ++ [Char.ofNat (48 + (n + 1) % 10)]

/-- Rust's decimal rendering of an unsigned integer (used both by `Display`
for the `(ID: ..)` part and by serde_json for the `id` field). -/
def toDecimal (n : Nat) : List Char :=
  if n = 0 then ['0'] else toDecimalAux n n

/-- Lowercase hexadecimal digit, as serde_json writes `\u00XX` escapes. -/
def hexDigitChar (n : Nat) : Char :=
  if n < 10 then Char.ofNat (48 + n) else Char.ofNat (87 + n)

/-- serde_json's escaping of one character inside a JSON string literal:
quote, backslash and the named control characters get two-character escapes,
any other control character a `\u00XX` escape, and everything else (all of
UTF-8) is copied through unescaped. -/
def escapeChar (c : Char) : List Char :=
  if c = '"' then ['\\', '"']
  else if c = '\\' then ['\\', '\\']
  else if c = Char.ofNat 8 then ['\\', 'b']
  else if c = Char.ofNat 9 then ['\\', 't']
  else if c = Char.ofNat 10 then ['\\', 'n']
  else if c = Char.ofNat 12 then ['\\', 'f']
  else if c = Char.ofNat 13 then ['\\', 'r']
  else if c.toNat < 32 then
    ['\\', 'u', '0', '0', hexDigitChar (c.toNat / 16), hexDigitChar (c.toNat % 16)]
  else [c]

/-- Escape a whole string body. -/
def escapeString (s : List Char) : List Char :=
  s.flatMap escapeChar

/-- A JSON string literal: quote, escaped body, quote. -/
def quoteJson (s : List Char) : List Char :=
  '"' :: (escapeString s ++ ['"'])

/-- The fixed text that opens a serialized `Todo` object: a brace and the
`id` key. -/
def objOpenChunk : List Char := "\x7b\"id\":".data

/-- The fixed text between the `id` value and the `content` value. -/
def contentChunk : List Char := ",\"content\":".data

/-- The fixed text between the `content` value and the `status` value. -/
def statusChunk : List Char := ",\"status\":".data

/-- The closing brace of a serialized `Todo` object. -/
def objCloseChunk : List Char := "\x7d".data

/-- serde_json's serialization of one `Todo`: fields in declaration order,
no insignificant whitespace. -/
def serializeTodo (t : Todo) : List Char :=
  objOpenChunk ++ toDecimal t.id
    ++ contentChunk ++ quoteJson t.content.data
    ++ statusChunk ++ quoteJson (statusName t.status).data
    ++ objCloseChunk

/-- Comma-separated array elements. -/
def serializeItems : List Todo → List Char
  | [] => []
  | [t] => serializeTodo t
  | t :: ts => serializeTodo t ++ (',' :: serializeItems ts)

/-- serde_json's serialization of a todo sequence: a JSON array. -/
def serializeTodos (ts : List Todo) : List Char :=
  '[' :: (serializeItems ts ++ [']'])

/-- Expect an exact sequence of characters, returning what follows it. -/
def expect : List Char → List Char → Option (List Char)
  | [], s => some s
  | _ :: _, [] => none
  | p :: ps, c :: s => if c = p then expect ps s else none

/-- Expect one exact character. -/
def expectChar (c : Char) : List Char → Option (List Char)
  | [] => none
  | x :: s => if x = c then some s else none

/-- JSON's insignificant whitespace (RFC 8259): space, tab, line feed and
carriage return — exactly the set serde_json skips between tokens. -/
def isJsonWs (c : Char) : Bool :=
  c.toNat == 32 || c.toNat == 9 || c.toNat == 10 || c.toNat == 13

/-- Skip a run of insignificant JSON whitespace. -/
def skipWs : List Char → List Char
  | [] => []
  | c :: s => if isJsonWs c then skipWs s else c :: s

/-- Consume a maximal run of decimal digits, folding them onto `acc`. -/
def parseDigits : Nat → List Char → Nat × List Char
  | acc, [] => (acc, [])
  | acc, c :: s =>
    if c.isDigit then parseDigits (acc * 10 + (c.toNat - 48)) s else (acc, c :: s)

/-- Parse a JSON integer as the `id: usize` field reads it: `0`, or a
nonzero digit followed by more digits; after a leading zero the number ends
at once, as in the JSON grammar, letting the surrounding structure reject
`01` just as serde does. Values are embedded as `Nat`: the whole development
embeds `usize` as unbounded naturals, so the `u64` cap of the machine
representation sits outside the text model exactly as it sits outside
`Todo.id`. -/
def parseJsonNat : List Char → Option (Nat × List Char)
  | [] => none
  | c :: s1 =>
    if c = '0' then some (0, s1)
    else if c.isDigit then some (parseDigits 0 (c :: s1))
    else none

/-- Value of one hexadecimal digit. -/
def hexVal (c : Char) : Option Nat :=
  if 48 ≤ c.toNat ∧ c.toNat ≤ 57 then some (c.toNat - 48)
  else if 97 ≤ c.toNat ∧ c.toNat ≤ 102 then some (c.toNat - 87)
  else if 65 ≤ c.toNat ∧ c.toNat ≤ 70 then some (c.toNat - 55)
  else none

/-- Decode a single-character JSON escape. -/
def escDecode (e : Char) : Option Char :=
  if e = '"' then some '"'
  else if e = '\\' then some '\\'
  else if e = '/' then some '/'
  else if e = 'b' then some (Char.ofNat 8)
  else if e = 'f' then some (Char.ofNat 12)
  else if e = 'n' then some (Char.ofNat 10)
  else if e = 'r' then some (Char.ofNat 13)
  else if e = 't' then some (Char.ofNat 9)
  else none

/-- One step inside a JSON string literal: either the closing quote
(`none`) or one decoded character, as serde_json decodes it — the named
escapes, `\uXXXX` for a scalar value, and a surrogate pair
`\uD800`–`\uDBFF` then `\uDC00`–`\uDFFF` combined into one supplementary
character. Lone surrogates and raw control characters are rejected, as
serde rejects them. -/
def strStep (input : List Char) : Option (Option Char × List Char) :=
  match input with
  | [] => none
  | c :: s =>
    if c = '"' then some (none, s)
    else if c = '\\' then
      match s with
      | [] => none
      | e :: s1 =>
        match escDecode e with
        | some d => some (some d, s1)
        | none =>
          if e = 'u' then
            match s1 with
            | h1 :: h2 :: h3 :: h4 :: s2 =>
              match hexVal h1, hexVal h2, hexVal h3, hexVal h4 with
              | some d1, some d2, some d3, some d4 =>
                let n := ((d1 * 16 + d2) * 16 + d3) * 16 + d4
                if n < 55296 ∨ 57343 < n then some (some (Char.ofNat n), s2)
                else if n ≤ 56319 then
                  match s2 with
                  | e2 :: u2 :: g1 :: g2 :: g3 :: g4 :: s3 =>
                    if e2 = '\\' ∧ u2 = 'u' then
                      match hexVal g1, hexVal g2, hexVal g3, hexVal g4 with
                      | some x1, some x2, some x3, some x4 =>
                        let m := ((x1 * 16 + x2) * 16 + x3) * 16 + x4
                        if 56320 ≤ m ∧ m ≤ 57343 then
                          some (some (Char.ofNat (65536 + (n - 55296) * 1024
                            + (m - 56320))), s3)
                        else none
                      | _, _, _, _ => none
                    else none
                  | _ => none
                else none
              | _, _, _, _ => none
            | _ => none
          else none
    else if c.toNat < 32 then none
    else some (some c, s)

/-- Iterate `strStep` until the closing quote, collecting the decoded
characters. Each step consumes at least one input character, so any fuel
beyond the input length is enough. -/
def parseStringBodyF : Nat → List Char → Option (List Char × List Char)
  | 0, _ => none
  | fuel + 1, s =>
    match strStep s with
    | none => none
    | some (none, r) => some ([], r)
    | some (some c, r) => (parseStringBodyF fuel r).map (fun p => (c :: p.1, p.2))

/-- Parse the body of a JSON string literal up to its closing quote,
decoding the escapes as serde_json does. -/
def parseStringBody (s : List Char) : Option (List Char × List Char) :=
  parseStringBodyF (s.length + 1) s

/-- Parse a JSON string literal. -/
def parseStringLit : List Char → Option (List Char × List Char)
  | [] => none
  | c :: s => if c = '"' then parseStringBody s else none

/-- serde's deserialization of the `TodoStatus` enum from its (unescaped)
variant name, case and spelling exact. -/
def decodeStatus (s : List Char) : Option TodoStatus :=
  if s = "Open".data then some TodoStatus.Open
  else if s = "InProgress".data then some TodoStatus.InProgress
  else if s = "Done".data then some TodoStatus.Done
  else none

/-- Consume a (possibly empty) run of digits. -/
def skipDigits : List Char → List Char
  | [] => []
  | c :: s => if c.isDigit then skipDigits s else c :: s

/-- Consume the integer part of a JSON number: `0`, or a nonzero digit run. -/
def skipInt : List Char → Option (List Char)
  | [] => none
  | c :: s =>
    if c = '0' then some s
    else if c.isDigit then some (skipDigits s)
    else none

/-- Consume an optional JSON fraction part. -/
def skipFrac : List Char → Option (List Char)
  | [] => some []
  | c :: s1 =>
    if c = '.' then
      match s1 with
      | [] => none
      | c2 :: s2 => if c2.isDigit then some (skipDigits s2) else none
    else some (c :: s1)

/-- Consume an optional JSON exponent part. -/
def skipExp : List Char → Option (List Char)
  | [] => some []
  | c :: s1 =>
    if c = 'e' ∨ c = 'E' then
      match s1 with
      | [] => none
      | c2 :: s2 =>
        if c2 = '+' ∨ c2 = '-' then
          match s2 with
          | [] => none
          | c3 :: s3 => if c3.isDigit then some (skipDigits s3) else none
        else if c2.isDigit then some (skipDigits s2)
        else none
    else some (c :: s1)

/-- Consume one JSON number: sign, integer, fraction, exponent. -/
def skipNumber (s : List Char) : Option (List Char) := do
  let s1 ← match s with
    | [] => none
    | c :: r => if c = '-' then some r else some (c :: r)
  let s2 ← skipInt s1
  let s3 ← skipFrac s2
  skipExp s3

mutual

/-- Skip one arbitrary JSON value, as serde_json skips the value of an
object member it does not recognise. The fuel bounds element counts and
nesting depth; one unit is spent per element, member or nesting level, each
of which consumes at least one input character, so any fuel of at least the
input length suffices for every value serde would accept. -/
def skipValue : Nat → List Char → Option (List Char)
  | 0, _ => none
  | fuel + 1, s =>
    match s with
    | [] => none
    | c :: s1 =>
      if c = '"' then (parseStringBody s1).map (fun r => r.2)
      else if c = 't' then expect "rue".data s1
      else if c = 'f' then expect "alse".data s1
      else if c = 'n' then expect "ull".data s1
      else if c = '[' then
        match skipWs s1 with
        | [] => none
        | c2 :: r2 => if c2 = ']' then some r2 else skipArrayItems fuel (c2 :: r2)
      else if c = '\x7b' then
        match skipWs s1 with
        | [] => none
        | c2 :: r2 => if c2 = '\x7d' then some r2 else skipObjMembers fuel (c2 :: r2)
      else if c = '-' ∨ c.isDigit = true then skipNumber (c :: s1)
      else none

/-- Skip the comma-separated items of a non-empty array being skipped. -/
def skipArrayItems : Nat → List Char → Option (List Char)
  | 0, _ => none
  | fuel + 1, s =>
    match skipValue fuel s with
    | none => none
    | some r =>
      match skipWs r with
      | [] => none
      | c :: r2 =>
        if c = ',' then skipArrayItems fuel (skipWs r2)
        else if c = ']' then some r2
        else none

/-- Skip the members of a non-empty object being skipped. -/
def skipObjMembers : Nat → List Char → Option (List Char)
  | 0, _ => none
  | fuel + 1, s =>
    match parseStringLit s with
    | none => none
    | some (_, r) =>
      match expectChar ':' (skipWs r) with
      | none => none
      | some r2 =>
        match skipValue fuel (skipWs r2) with
        | none => none
        | some r3 =>
          match skipWs r3 with
          | [] => none
          | c :: r4 =>
            if c = ',' then skipObjMembers fuel (skipWs r4)
            else if c = '\x7d' then some r4
            else none

end

/-- Accumulator for the three recognised members of a `Todo` object. -/
structure TodoFields where
  id? : Option Nat
  content? : Option String
  status? : Option TodoStatus

/-- Parse one object member starting at its key: the key string (escapes
decoded, as serde matches field identifiers after unescaping), a colon and
the value. A recognised key met twice is serde's duplicate-field error; an
unrecognised member's value is skipped, as serde_json ignores unknown
fields. -/
def parseMember (fuel : Nat) (acc : TodoFields) (s : List Char) :
    Option (TodoFields × List Char) := do
  let (key, r1) ← parseStringLit s
  let r2 ← expectChar ':' (skipWs r1)
  let r3 := skipWs r2
  if key = "id".data then
    match acc.id? with
    | some _ => none
    | none => (parseJsonNat r3).map (fun p => ({ acc with id? := some p.1 }, p.2))
  else if key = "content".data then
    match acc.content? with
    | some _ => none
    | none =>
      (parseStringLit r3).map (fun p => ({ acc with content? := some (String.mk p.1) }, p.2))
  else if key = "status".data then
    match acc.status? with
    | some _ => none
    | none =>
      (parseStringLit r3).bind (fun p =>
        (decodeStatus p.1).map (fun st => ({ acc with status? := some st }, p.2)))
  else
    (skipValue fuel r3).map (fun p => (acc, p))

/-- Parse the members of a `Todo` object in any order — §6's "field order is
not significant" — requiring each of `id`, `content` and `status` exactly
once by the closing brace (serde's missing-field and duplicate-field
errors). -/
def parseTodoFields : Nat → TodoFields → List Char → Option (Todo × List Char)
  | 0, _, _ => none
  | fuel + 1, acc, s =>
    match parseMember fuel acc s with
    | none => none
    | some (acc2, r4) =>
      match skipWs r4 with
      | [] => none
      | c :: r5 =>
        if c = ',' then parseTodoFields fuel acc2 (skipWs r5)
        else if c = '\x7d' then
          match acc2.id?, acc2.content?, acc2.status? with
          | some id, some content, some status =>
            some ({ id := id, content := content, status := status }, r5)
          | _, _, _ => none
        else none

/-- Parse one serialized `Todo` object. -/
def parseTodoObj (fuel : Nat) (s : List Char) : Option (Todo × List Char) :=
  match s with
  | [] => none
  | c :: s1 =>
    if c = '\x7b' then
      match skipWs s1 with
      | [] => none
      | c2 :: r2 =>
        if c2 = '\x7d' then none
        else parseTodoFields fuel { id? := none, content? := none, status? := none }
          (c2 :: r2)
    else none

/-- Parse one-or-more comma-separated `Todo` objects followed by the closing
bracket of the array, whitespace allowed around the separators. -/
def parseItems : Nat → List Char → Option (List Todo × List Char)
  | 0, _ => none
  | fuel + 1, s =>
    match parseTodoObj fuel s with
    | none => none
    | some (t, r) =>
      match skipWs r with
      | [] => none
      | c :: r1 =>
        if c = ',' then (parseItems fuel (skipWs r1)).map (fun p => (t :: p.1, p.2))
        else if c = ']' then some ([t], r1)
        else none

/-- Parse a whole serialized todo sequence: optional surrounding whitespace,
one array, and nothing but whitespace after it, as `serde_json::from_str`
requires the input to be fully consumed. -/
def parseTodosChars (s : List Char) : Option (List Todo) :=
  match skipWs s with
  | [] => none
  | c :: s1 =>
    if c = '[' then
      match skipWs s1 with
      | [] => none
      | c1 :: r =>
        if c1 = ']' then (if skipWs r = [] then some [] else none)
        else
          match parseItems s.length (c1 :: r) with
          | some (ts, r1) => if skipWs r1 = [] then some ts else none
          | none => none
    else none

/-- The durable file format of §6, `serde_json` deserialization of
`Vec<Todo>`: a JSON array of objects whose members may come in any order,
with JSON whitespace insignificant between and around tokens. -/
def parseTodos (s : String) : Option (List Todo) :=
  parseTodosChars s.data

/-- Rust's `char::is_whitespace`, the predicate `str::trim` strips: the 25
code points carrying the Unicode `White_Space` property. -/
def rustIsWhitespace (c : Char) : Bool :=
  [9, 10, 11, 12, 13, 32, 133, 160, 5760, 8192, 8193, 8194, 8195, 8196, 8197,
    8198, 8199, 8200, 8201, 8202, 8232, 8233, 8239, 8287, 12288].contains c.toNat

/-- `JsonStorage::load`: read the file (`FileError` when the location cannot
be read), return the empty sequence when the contents are empty or
whitespace-only — `json.trim().is_empty()` holds exactly when every
character has the Unicode `White_Space` property that `str::trim` strips —
otherwise parse (`ParseError` when not well-formed). -/
def JsonStorage.load (path : String) (file : Option String) :
    Except TodoStorageError (List Todo) :=
  match file with
  | none => Except.error (TodoStorageError.FileError path)
  | some json =>
    if json.data.all rustIsWhitespace then Except.ok []
    else
      match parseTodos json with
      | some todos => Except.ok todos
      | none => Except.error (TodoStorageError.ParseError path)

/-- `JsonStorage::save`: `serde_json::to_string` cannot fail for `Todo`
values (the `SerializeError` arm guards only map-key and custom-`Serialize`
failures, which this data type cannot produce), then the file is opened with
`write(true).truncate(true)` and no `create`, so a missing file yields
`FileError` with nothing written, and an existing file has its contents
replaced by the serialized array. The first component of the result is the
state of the location afterwards, the second the Rust return value. -/
def JsonStorage.save (todos : List Todo) (path : String) (file : Option String) :
    Option String × Except TodoStorageError Unit :=
  match file with
  | none => (none, Except.error (TodoStorageError.FileError path))
  | some _ => (some (String.mk (serializeTodos todos)), Except.ok ())

/-- Rust `format!` left-aligned minimum-width padding (`{:<w}`) as it applies
to a `String` argument: `str`'s `Display` impl calls `Formatter::pad`, which
pads to at least `w` characters and never truncates (truncation would require
a precision, not a width). -/
def fmtLeftAligned (s : String) (w : Nat) : String :=
  s ++ String.mk (List.replicate (w - s.length) ' ')

/-- Derived `Debug` output of a `TodoStatus`: the bare variant name written
with `Formatter::write_str`, which ignores the formatter's width and fill —
so the `{:<12?}` in the format string pads nothing. -/
def statusDebug (st : TodoStatus) : String :=
  statusName st

/-- `impl Display for Todo`:
`write!(f, "[{}] {:<20} [{:<12?}] (ID: {})", tick, content, status, id)`. -/
def Todo.display (t : Todo) : String :=
  "[" ++ (if t.status = TodoStatus.Done then "x" else " ") ++ "] "
    ++ fmtLeftAligned t.content 20 ++ " [" ++ statusDebug t.status
    ++ "] (ID: " ++ String.mk (toDecimal t.id) ++ ")"

/-- The rendering the specification's sentence describes, named from its
words for comparison with `Todo.display`: the content forced into a
20-character column (padded or truncated to the column width) and the status
padded into a 12-character column. -/
def specDisplay (t : Todo) : String :=
  "[" ++ (if t.status = TodoStatus.Done then "x" else " ") ++ "] "
    ++ fmtLeftAligned (t.content.take 20) 20 ++ " ["
    ++ fmtLeftAligned (statusName t.status) 12
    ++ "] (ID: " ++ String.mk (toDecimal t.id) ++ ")"

/-! ## Helper lemmas about the manager -/

lemma add_todo_fst (m : TodoManager) (content : String) :
    (m.add_todo content).1
      = { id_counter := (m.id_counter + 1) % USIZE,
          todos := m.todos ++ [Todo.new ((m.id_counter + 1) % USIZE) content] } :=
  rfl

lemma add_todo_ret (m : TodoManager) (content : String) :
    (m.add_todo content).2 = (m.id_counter + 1) % USIZE := by
  simp [TodoManager.add_todo, List.getLast_concat, Todo.new]

/-- Invariant carried across driver runs: every stored id is dominated by
the counter, and no two stored tasks share an id. -/
def ManagerInv (m : TodoManager) : Prop :=
  (∀ t ∈ m.todos, t.id ≤ m.id_counter) ∧ (m.todos.map Todo.id).Nodup

lemma managerInv_default : ManagerInv TodoManager.default := by
  constructor <;> simp [TodoManager.default]

lemma managerInv_add (m : TodoManager) (content : String) (h : m.id_counter + 1 < USIZE)
    (hm : ManagerInv m) :
    ManagerInv (m.add_todo content).1 ∧
      (m.add_todo content).1.id_counter = m.id_counter + 1 := by
  obtain ⟨hle, hnd⟩ := hm
  have hmod : (m.id_counter + 1) % USIZE = m.id_counter + 1 := Nat.mod_eq_of_lt h
  rw [add_todo_fst, hmod]
  refine ⟨⟨?_, ?_⟩, rfl⟩
  · intro t ht
    rcases List.mem_append.1 ht with hin | hnew
    · exact Nat.le_succ_of_le (hle t hin)
    · simp only [List.mem_singleton] at hnew
      simp [hnew, Todo.new]
  · rw [List.map_append]
    refine List.Nodup.append hnd (by simp) ?_
    intro x hx hx1
    simp only [List.map_cons, List.map_nil, List.mem_singleton, Todo.new] at hx1
    rcases List.mem_map.1 hx with ⟨t, hin, rfl⟩
    have := hle t hin
    omega

lemma managerInv_delete (m : TodoManager) (id : Nat) (hm : ManagerInv m) :
    ManagerInv (m.delete_todo id).1 ∧ (m.delete_todo id).1.id_counter = m.id_counter := by
  obtain ⟨hle, hnd⟩ := hm
  cases h : m.todos.findIdx? (fun t => t.id == id) with
  | none =>
    simp only [TodoManager.delete_todo, h]
    exact ⟨⟨hle, hnd⟩, trivial⟩
  | some i =>
    simp only [TodoManager.delete_todo, h]
    have hsub : (m.todos.eraseIdx i).Sublist m.todos := List.eraseIdx_sublist m.todos i
    exact ⟨⟨fun t ht => hle t (hsub.subset ht), (hsub.map Todo.id).nodup hnd⟩, trivial⟩

lemma runOps_spec (ops : List TodoOp) :
    ∀ (m : TodoManager), ManagerInv m → m.id_counter + countAdds ops < USIZE →
      (m.runOps ops).2 = List.range' (m.id_counter + 1) (countAdds ops) ∧
      ManagerInv (m.runOps ops).1 ∧
      (m.runOps ops).1.id_counter = m.id_counter + countAdds ops := by
  induction ops with
  | nil =>
    intro m hm _
    have h0 : countAdds ([] : List TodoOp) = 0 := rfl
    exact ⟨by simp [TodoManager.runOps, h0], hm, by simp [TodoManager.runOps, h0]⟩
  | cons op ops ih =>
    intro m hm h
    cases op with
    | add content =>
      have hk : countAdds (TodoOp.add content :: ops) = countAdds ops + 1 := rfl
      have hlt : m.id_counter + 1 < USIZE := by omega
      obtain ⟨hinv1, hcnt1⟩ := managerInv_add m content hlt hm
      have h1 : (m.add_todo content).1.id_counter + countAdds ops < USIZE := by
        rw [hcnt1]; omega
      obtain ⟨hids, hinv2, hcnt2⟩ := ih (m.add_todo content).1 hinv1 h1
      refine ⟨?_, hinv2, ?_⟩
      · simp only [TodoManager.runOps, TodoManager.runOp, Option.toList_some,
          List.singleton_append, hids, add_todo_ret, hcnt1, hk]
        rw [Nat.mod_eq_of_lt hlt, List.range'_succ]
      · simp only [TodoManager.runOps, TodoManager.runOp, hcnt2, hcnt1, hk]
        omega
    | delete id =>
      have hk : countAdds (TodoOp.delete id :: ops) = countAdds ops := rfl
      obtain ⟨hinv1, hcnt1⟩ := managerInv_delete m id hm
      have h1 : (m.delete_todo id).1.id_counter + countAdds ops < USIZE := by
        rw [hcnt1]; omega
      obtain ⟨hids, hinv2, hcnt2⟩ := ih (m.delete_todo id).1 hinv1 h1
      refine ⟨?_, hinv2, ?_⟩
      · simp only [TodoManager.runOps, TodoManager.runOp, Option.toList_none,
          List.nil_append, hids, hcnt1, hk]
      · simp only [TodoManager.runOps, TodoManager.runOp, hcnt2, hcnt1, hk]

lemma runOps_replicate_add (s : String) :
    ∀ (n : Nat) (m : TodoManager),
      (m.runOps (List.replicate n (TodoOp.add s))).2
        = (List.range n).map (fun i => (m.id_counter + i + 1) % USIZE) := by
  intro n
  induction n with
  | zero => intro m; simp [TodoManager.runOps]
  | succ n ih =>
    intro m
    rw [List.replicate_succ]
    simp only [TodoManager.runOps, TodoManager.runOp, Option.toList_some, List.singleton_append]
    rw [add_todo_ret, ih]
    have hcnt : (m.add_todo s).1.id_counter = (m.id_counter + 1) % USIZE := rfl
    have htail : (List.range n).map (fun i => ((m.id_counter + 1) % USIZE + i + 1) % USIZE)
        = (List.range n).map (fun i => (m.id_counter + Nat.succ i + 1) % USIZE) := by
      refine List.map_congr_left (fun i _ => ?_)
      rw [Nat.add_assoc ((m.id_counter + 1) % USIZE) i 1, Nat.mod_add_mod]
      congr 1
      omega
    rw [hcnt, htail, List.range_succ_eq_map]
    simp [List.map_map, Function.comp]

/-- C1, counterexample: after `2 ^ 64` successive `add` calls on an
empty-constructed manager the wrapped `usize` counter makes the sequence of
returned ids `[1, …, 2 ^ 64 - 1, 0]`, which is not strictly increasing; the
claim as stated, quantifying over every sequence of calls with no bound on
its length, therefore fails on the code's counter arithmetic. -/
theorem claim1_counterexample :
    ¬ List.Pairwise (fun a b => a < b)
      (TodoManager.default.runOps (List.replicate USIZE (TodoOp.add "x"))).2 := by
  intro hp
  rw [runOps_replicate_add] at hp
  have hU : 2 ≤ USIZE := by norm_num [USIZE]
  rw [List.pairwise_iff_getElem] at hp
  have hlt := hp (USIZE - 2) (USIZE - 1) (by simpa using by omega)
    (by simpa using by omega) (by omega)
  simp only [List.getElem_map, List.getElem_range] at hlt
  have e1 : TodoManager.default.id_counter + (USIZE - 2) + 1 = USIZE - 1 := by
    show 0 + (USIZE - 2) + 1 = USIZE - 1
    omega
  have e2 : TodoManager.default.id_counter + (USIZE - 1) + 1 = USIZE := by
    show 0 + (USIZE - 1) + 1 = USIZE
    omega
  rw [e1, e2, Nat.mod_self, Nat.mod_eq_of_lt (by omega)] at hlt
  omega

/-- C1, amended: for every sequence of `add` and `delete` calls on an
empty-constructed manager **with fewer than `2 ^ 64` adds** (every sequence a
process could issue), the returned ids are exactly `1, 2, 3, …` in order —
strictly increasing from 1, no gaps, never reused even across deletes — and
no two tasks of the resulting (hence of any reachable) state share an id. -/
theorem claim1_ids_fresh (ops : List TodoOp) (h : countAdds ops < USIZE) :
    (TodoManager.default.runOps ops).2 = List.range' 1 (countAdds ops) ∧
    ((TodoManager.default.runOps ops).1.todos.map Todo.id).Nodup := by
  obtain ⟨hids, hinv, _⟩ := runOps_spec ops TodoManager.default managerInv_default
    (by simpa [TodoManager.default] using h)
  exact ⟨by simpa [TodoManager.default] using hids, hinv.2⟩

/-- Witness for `claim1_ids_fresh` at a concrete driver sequence (two adds,
a delete of the first id, another add). -/
theorem claim1_ids_fresh_witness :
    countAdds [TodoOp.add "a", TodoOp.add "b", TodoOp.delete 1, TodoOp.add "c"] < USIZE ∧
    ((TodoManager.default.runOps
        [TodoOp.add "a", TodoOp.add "b", TodoOp.delete 1, TodoOp.add "c"]).2
      = List.range' 1
          (countAdds [TodoOp.add "a", TodoOp.add "b", TodoOp.delete 1, TodoOp.add "c"]) ∧
     ((TodoManager.default.runOps
        [TodoOp.add "a", TodoOp.add "b", TodoOp.delete 1, TodoOp.add "c"]).1.todos.map
          Todo.id).Nodup) :=
  ⟨by decide, claim1_ids_fresh _ (by decide)⟩

/-- C8, counterexample: a manager whose counter sits at the maximum
representable value (`usize::MAX = 2 ^ 64 - 1`, reachable in one call via
`TodoManager::new`) wraps to counter 0 on `add` under release-profile
semantics (a debug build would abort instead), so the counter does not
strictly increase there and the claim's parenthetical fails. -/
theorem claim8_counterexample :
    ((TodoManager.mk (USIZE - 1) []).add_todo "x").1.id_counter = 0 ∧
    ¬ (TodoManager.mk (USIZE - 1) []).id_counter
        < ((TodoManager.mk (USIZE - 1) []).add_todo "x").1.id_counter := by
  constructor <;> decide

/-- C8, amended: for every manager state whose counter is **below
`usize::MAX`** and every content string, `add` returns the incremented
counter, appends exactly one task carrying that id, the given content and
status `Open`, and strictly increases the counter. -/
theorem claim8_add_total (m : TodoManager) (content : String)
    (h : m.id_counter + 1 < USIZE) :
    (m.add_todo content).2 = m.id_counter + 1 ∧
    (m.add_todo content).1.id_counter = m.id_counter + 1 ∧
    (m.add_todo content).1.todos
      = m.todos ++ [{ id := m.id_counter + 1, content := content,
                      status := TodoStatus.Open }] ∧
    (m.add_todo content).1.todos.length = m.todos.length + 1 ∧
    m.id_counter < (m.add_todo content).1.id_counter := by
  have hmod : (m.id_counter + 1) % USIZE = m.id_counter + 1 := Nat.mod_eq_of_lt h
  refine ⟨by rw [add_todo_ret, hmod], ?_, ?_, ?_, ?_⟩ <;>
    simp [add_todo_fst, hmod, Todo.new]

/-- Witness for `claim8_add_total` on the default manager. -/
theorem claim8_add_total_witness :
    TodoManager.default.id_counter + 1 < USIZE ∧
    ((TodoManager.default.add_todo "a").2 = TodoManager.default.id_counter + 1 ∧
     (TodoManager.default.add_todo "a").1.id_counter
       = TodoManager.default.id_counter + 1 ∧
     (TodoManager.default.add_todo "a").1.todos
       = TodoManager.default.todos
           ++ [{ id := TodoManager.default.id_counter + 1, content := "a",
                 status := TodoStatus.Open }] ∧
     (TodoManager.default.add_todo "a").1.todos.length
       = TodoManager.default.todos.length + 1 ∧
     TodoManager.default.id_counter < (TodoManager.default.add_todo "a").1.id_counter) :=
  ⟨by decide, claim8_add_total TodoManager.default "a" (by decide)⟩

lemma updateFirst_eq_none (p : Todo → Bool) (f : Todo → Todo) :
    ∀ ts : List Todo, (∀ t ∈ ts, p t = false) → updateFirst p f ts = none
  | [], _ => rfl
  | t :: ts, h => by
    have ht : p t = false := h t (List.mem_cons_self t ts)
    have ih := updateFirst_eq_none p f ts (fun u hu => h u (List.mem_cons_of_mem t hu))
    simp [updateFirst, ht, ih]

/-- C2: when no stored task carries the requested id, each of the three by-id
mutations returns `NotFound` with exactly that id and leaves the manager
bit-for-bit unchanged (same counter, same task sequence). -/
theorem claim2_not_found (m : TodoManager) (id : Nat) (content : String)
    (state : TodoStatus) (h : ∀ t ∈ m.todos, t.id ≠ id) :
    m.edit_todo_content id content = (m, Except.error (TodoError.NotFound id)) ∧
    m.change_todo_status id state = (m, Except.error (TodoError.NotFound id)) ∧
    m.delete_todo id = (m, Except.error (TodoError.NotFound id)) := by
  have hfalse : ∀ t ∈ m.todos, ((fun u : Todo => u.id == id) t) = false := fun t ht => by
    simpa using h t ht
  have hupd1 := updateFirst_eq_none (fun t => t.id == id)
    (fun t => { t with content := content }) m.todos hfalse
  have hupd2 := updateFirst_eq_none (fun t => t.id == id)
    (fun t => { t with status := state }) m.todos hfalse
  have hidx : m.todos.findIdx? (fun t => t.id == id) = none :=
    List.findIdx?_eq_none_iff.2 hfalse
  refine ⟨?_, ?_, ?_⟩ <;>
    simp [TodoManager.edit_todo_content, TodoManager.change_todo_status,
      TodoManager.delete_todo, hupd1, hupd2, hidx]

/-- Witness for `claim2_not_found`: id 2 is absent from a manager holding
tasks 1 and 3. -/
theorem claim2_not_found_witness :
    (∀ t ∈ (TodoManager.mk 3 [Todo.new 1 "a", Todo.new 3 "b"]).todos, t.id ≠ 2) ∧
    ((TodoManager.mk 3 [Todo.new 1 "a", Todo.new 3 "b"]).edit_todo_content 2 "z"
        = (TodoManager.mk 3 [Todo.new 1 "a", Todo.new 3 "b"],
           Except.error (TodoError.NotFound 2)) ∧
     (TodoManager.mk 3 [Todo.new 1 "a", Todo.new 3 "b"]).change_todo_status 2 TodoStatus.Done
        = (TodoManager.mk 3 [Todo.new 1 "a", Todo.new 3 "b"],
           Except.error (TodoError.NotFound 2)) ∧
     (TodoManager.mk 3 [Todo.new 1 "a", Todo.new 3 "b"]).delete_todo 2
        = (TodoManager.mk 3 [Todo.new 1 "a", Todo.new 3 "b"],
           Except.error (TodoError.NotFound 2))) :=
  ⟨by decide, claim2_not_found _ 2 "z" TodoStatus.Done (by decide)⟩

lemma max?_getD_le (l : List Nat) : ∀ x ∈ l, x ≤ l.max?.getD 0 := by
  induction l with
  | nil => simp
  | cons a l ih =>
    intro x hx
    rw [List.max?_cons]
    cases hml : l.max? with
    | none =>
      have hnil : l = [] := List.max?_eq_none_iff.1 hml
      subst hnil
      simp only [List.mem_singleton] at hx
      simp [hx]
    | some mx =>
      rcases List.mem_cons.1 hx with rfl | hx
      · simp [hml]
      · have := ih x hx
        rw [hml] at this
        simp only [Option.getD_some] at this
        simp only [hml, Option.elim_some, Option.getD_some]
        exact le_trans this (le_max_right a mx)

lemma max?_getD_mem (l : List Nat) (h : l ≠ []) : l.max?.getD 0 ∈ l := by
  induction l with
  | nil => exact absurd rfl h
  | cons a l ih =>
    rw [List.max?_cons]
    cases hml : l.max? with
    | none => simp
    | some mx =>
      have hlne : l ≠ [] := by
        intro hnil
        rw [hnil] at hml
        simp at hml
      have hmem : mx ∈ l := by
        have := ih hlne
        rwa [hml, Option.getD_some] at this
      simp only [Option.elim_some, Option.getD_some]
      rcases max_choice a mx with hmax | hmax
      · rw [hmax]; exact List.mem_cons_self a l
      · rw [hmax]; exact List.mem_cons_of_mem a hmem

/-- C3: the constructor adopts the sequence verbatim with no reordering or
validation, and its counter is the maximum id present (an upper bound on all
ids that is itself one of them) or 0 for the empty sequence; in particular
the `{0, 10, 2}` example yields counter 10 and the next `add` returns 11. -/
theorem claim3_construct (ts : List Todo) :
    (TodoManager.new ts).todos = ts ∧
    (∀ t ∈ ts, t.id ≤ (TodoManager.new ts).id_counter) ∧
    (ts = [] → (TodoManager.new ts).id_counter = 0) ∧
    (ts ≠ [] → (TodoManager.new ts).id_counter ∈ ts.map Todo.id) ∧
    (TodoManager.new [Todo.new 0 "a", Todo.new 10 "b", Todo.new 2 "c"]).id_counter = 10 ∧
    ((TodoManager.new [Todo.new 0 "a", Todo.new 10 "b", Todo.new 2 "c"]).add_todo "d").2
      = 11 := by
  refine ⟨rfl, ?_, ?_, ?_, by decide, by decide⟩
  · intro t ht
    exact max?_getD_le (ts.map Todo.id) t.id (List.mem_map_of_mem Todo.id ht)
  · rintro rfl
    rfl
  · intro hne
    exact max?_getD_mem (ts.map Todo.id) (by simpa using hne)

lemma findIdx?_decomp (id : Nat) :
    ∀ (ts : List Todo) (i : Nat), (∃ t ∈ ts, t.id = id) →
      ∃ l1 t l2, ts = l1 ++ t :: l2 ∧ t.id = id ∧
        List.findIdx? (fun u => u.id == id) ts i = some (i + l1.length)
  | [], _, h => by simp at h
  | t :: ts, i, h => by
    by_cases ht : t.id = id
    · exact ⟨[], t, ts, rfl, ht, by simp [List.findIdx?_cons, ht]⟩
    · have hex : ∃ u ∈ ts, u.id = id := by
        rcases h with ⟨u, hu, hid⟩
        rcases List.mem_cons.1 hu with rfl | hu
        · exact absurd hid ht
        · exact ⟨u, hu, hid⟩
      obtain ⟨l1, u, l2, heq, hid, hfind⟩ := findIdx?_decomp id ts (i + 1) hex
      refine ⟨t :: l1, u, l2, by rw [heq]; rfl, hid, ?_⟩
      rw [List.findIdx?_cons, if_neg (by simp [ht]), hfind]
      congr 1
      simp only [List.length_cons]
      omega

lemma eraseIdx_append_cons (l1 : List Todo) (t : Todo) (l2 : List Todo) :
    (l1 ++ t :: l2).eraseIdx l1.length = l1 ++ l2 := by
  induction l1 with
  | nil => rfl
  | cons a l1 ih => simpa using ih

/-- C4: deleting an id that is present removes exactly one task — the first
one carrying that id — keeping the counter, the relative order, the contents
and the statuses of all remaining tasks, and shrinking the sequence by one. -/
theorem claim4_delete_found (m : TodoManager) (id : Nat)
    (h : ∃ t ∈ m.todos, t.id = id) :
    ∃ l1 t l2, m.todos = l1 ++ t :: l2 ∧ t.id = id ∧
      m.delete_todo id
        = ({ id_counter := m.id_counter, todos := l1 ++ l2 }, Except.ok ()) ∧
      (m.delete_todo id).1.todos.length + 1 = m.todos.length := by
  obtain ⟨l1, t, l2, heq, hid, hfind⟩ := findIdx?_decomp id m.todos 0 h
  have hfind0 : m.todos.findIdx? (fun u => u.id == id) = some l1.length := by
    simpa using hfind
  have hdel : m.delete_todo id
      = ({ id_counter := m.id_counter, todos := m.todos.eraseIdx l1.length },
         Except.ok ()) := by
    simp [TodoManager.delete_todo, hfind0]
  have herase : m.todos.eraseIdx l1.length = l1 ++ l2 := by
    rw [heq]
    exact eraseIdx_append_cons l1 t l2
  refine ⟨l1, t, l2, heq, hid, by rw [hdel, herase], ?_⟩
  rw [hdel, herase, heq]
  simp only [List.length_append, List.length_cons]
  omega

/-- Witness for `claim4_delete_found`: deleting id 1 from a manager holding
tasks 1 and 2. -/
theorem claim4_delete_found_witness :
    (∃ t ∈ (TodoManager.mk 2 [Todo.new 1 "a", Todo.new 2 "b"]).todos, t.id = 1) ∧
    (∃ l1 t l2,
      (TodoManager.mk 2 [Todo.new 1 "a", Todo.new 2 "b"]).todos = l1 ++ t :: l2 ∧
      t.id = 1 ∧
      (TodoManager.mk 2 [Todo.new 1 "a", Todo.new 2 "b"]).delete_todo 1
        = ({ id_counter := 2, todos := l1 ++ l2 }, Except.ok ()) ∧
      ((TodoManager.mk 2 [Todo.new 1 "a", Todo.new 2 "b"]).delete_todo 1).1.todos.length + 1
        = (TodoManager.mk 2 [Todo.new 1 "a", Todo.new 2 "b"]).todos.length) :=
  ⟨by decide, claim4_delete_found _ 1 (by decide)⟩

/-- C5: `todos_by_status` returns exactly the stored tasks carrying the given
status — a subsequence of the stored order containing every task of that
status with its multiplicity and nothing else — and `todo_by_id` on the empty
default manager returns `none` for every id; both are pure queries (total
functions of the state) and cannot fail. -/
theorem claim5_filter_and_find (m : TodoManager) (status : TodoStatus) (id : Nat) :
    (m.todos_by_status status).Sublist m.todos ∧
    (∀ t : Todo, (m.todos_by_status status).count t
        = if t.status = status then m.todos.count t else 0) ∧
    TodoManager.default.todo_by_id id = none := by
  refine ⟨List.filter_sublist m.todos, ?_, rfl⟩
  intro t
  by_cases ht : t.status = status
  · rw [if_pos ht]
    exact List.count_filter (by simp [ht])
  · rw [if_neg ht]
    rw [List.count_eq_zero]
    intro hmem
    exact ht (by simpa using (List.mem_filter.1 hmem).2)

/-! ## Helper lemmas about the JSON text model -/

lemma expect_append (p : List Char) : ∀ s : List Char, expect p (p ++ s) = some s := by
  induction p with
  | nil => intro s; rfl
  | cons c p ih => intro s; simp [expect, ih]

lemma digitChar_isDigit : ∀ r : Nat, r < 10 → (Char.ofNat (48 + r)).isDigit = true := by
  decide

lemma digitChar_toNat : ∀ r : Nat, r < 10 → (Char.ofNat (48 + r)).toNat = 48 + r := by
  decide

lemma hexVal_hexDigitChar : ∀ r : Nat, r < 16 → hexVal (hexDigitChar r) = some r := by
  decide

lemma parseDigits_toDecimalAux :
    ∀ (fuel n : Nat), n ≤ fuel → ∀ (acc : Nat) (rest : List Char),
      parseDigits acc (toDecimalAux fuel n ++ rest)
        = parseDigits (acc * 10 ^ (toDecimalAux fuel n).length + n) rest := by
  intro fuel
  induction fuel with
  | zero =>
    intro n hn acc rest
    have hz : n = 0 := by omega
    subst hz
    simp [toDecimalAux]
  | succ fuel ih =>
    intro n hn acc rest
    cases n with
    | zero => simp [toDecimalAux]
    | succ m =>
      have hq : (m + 1) / 10 ≤ fuel := by
        have h2 : (m + 1) / 10 < m + 1 := Nat.div_lt_self (by omega) (by omega)
        omega
      have hd : (Char.ofNat (48 + (m + 1) % 10)).isDigit = true :=
        digitChar_isDigit _ (Nat.mod_lt _ (by omega))
      have hdn : (Char.ofNat (48 + (m + 1) % 10)).toNat = 48 + (m + 1) % 10 :=
        digitChar_toNat _ (Nat.mod_lt _ (by omega))
      simp only [toDecimalAux, List.append_assoc, List.singleton_append]
      rw [ih _ hq]
      simp only [parseDigits, hd, if_true, hdn]
      congr 1
      have hdm : 10 * ((m + 1) / 10) + (m + 1) % 10 = m + 1 := Nat.div_add_mod (m + 1) 10
      have hsub : 48 + (m + 1) % 10 - 48 = (m + 1) % 10 := by omega
      rw [hsub]
      simp only [List.length_append, List.length_cons, List.length_nil]
      calc (acc * 10 ^ (toDecimalAux fuel ((m + 1) / 10)).length + (m + 1) / 10) * 10
            + (m + 1) % 10
          = acc * (10 ^ (toDecimalAux fuel ((m + 1) / 10)).length * 10)
            + (10 * ((m + 1) / 10) + (m + 1) % 10) := by ring
        _ = acc * 10 ^ ((toDecimalAux fuel ((m + 1) / 10)).length + (0 + 1)) + (m + 1) := by
            rw [hdm, pow_succ]

lemma parseDigits_stop (n : Nat) (c : Char) (rest : List Char) (hc : c.isDigit = false) :
    parseDigits n (c :: rest) = (n, c :: rest) := by
  simp [parseDigits, hc]

lemma strStep_quote (s : List Char) : strStep ('"' :: s) = some (none, s) := rfl

lemma strStep_esc_quote (s : List Char) : strStep ('\\' :: '"' :: s) = some (some '"', s) := rfl

lemma strStep_esc_backslash (s : List Char) :
    strStep ('\\' :: '\\' :: s) = some (some '\\', s) := rfl

lemma strStep_esc_b (s : List Char) :
    strStep ('\\' :: 'b' :: s) = some (some (Char.ofNat 8), s) := rfl

lemma strStep_esc_t (s : List Char) :
    strStep ('\\' :: 't' :: s) = some (some (Char.ofNat 9), s) := rfl

lemma strStep_esc_n (s : List Char) :
    strStep ('\\' :: 'n' :: s) = some (some (Char.ofNat 10), s) := rfl

lemma strStep_esc_f (s : List Char) :
    strStep ('\\' :: 'f' :: s) = some (some (Char.ofNat 12), s) := rfl

lemma strStep_esc_r (s : List Char) :
    strStep ('\\' :: 'r' :: s) = some (some (Char.ofNat 13), s) := rfl

lemma strStep_esc_u (c3 c4 : Char) (s : List Char) (d3 d4 : Nat)
    (e3 : hexVal c3 = some d3) (e4 : hexVal c4 = some d4)
    (hlt : d3 * 16 + d4 < 55296) :
    strStep ('\\' :: 'u' :: '0' :: '0' :: c3 :: c4 :: s)
      = some (some (Char.ofNat (d3 * 16 + d4)), s) := by
  simp [strStep, escDecode, e3, e4, hlt, show hexVal '0' = some 0 from rfl]

lemma strStep_plain (c : Char) (s : List Char) (h1 : c ≠ '"') (h2 : c ≠ '\\')
    (h3 : ¬ c.toNat < 32) :
    strStep (c :: s) = some (some c, s) := by
  simp [strStep, h1, h2, h3]

lemma psbF_escape :
    ∀ (cs : List Char) (fuel : Nat) (rest : List Char), cs.length + 1 ≤ fuel →
      parseStringBodyF fuel (escapeString cs ++ ('"' :: rest)) = some (cs, rest)
  | [], fuel, rest, hf => by
    obtain ⟨f, rfl⟩ : ∃ f, fuel = f + 1 := ⟨fuel - 1, by omega⟩
    rw [show escapeString [] = [] from rfl, List.nil_append]
    rw [show f + 1 = Nat.succ f from rfl]
    conv_lhs => rw [parseStringBodyF.eq_def]
    simp [strStep_quote]
  | c :: cs, fuel, rest, hf => by
    obtain ⟨f, rfl⟩ : ∃ f, fuel = f + 1 :=
      ⟨fuel - 1, by simp only [List.length_cons] at hf; omega⟩
    have ih := psbF_escape cs f rest (by simp only [List.length_cons] at hf; omega)
    have hcons : escapeString (c :: cs) = escapeChar c ++ escapeString cs :=
      List.flatMap_cons c cs escapeChar
    rw [hcons, List.append_assoc]
    rw [show f + 1 = Nat.succ f from rfl]
    conv_lhs => rw [parseStringBodyF.eq_def]
    rcases eq_or_ne c '"' with h1 | h1
    · subst h1
      rw [show escapeChar '"' = ['\\', '"'] from by decide]
      simp [strStep_esc_quote, ih]
    rcases eq_or_ne c '\\' with h2 | h2
    · subst h2
      rw [show escapeChar '\\' = ['\\', '\\'] from by decide]
      simp [strStep_esc_backslash, ih]
    rcases eq_or_ne c (Char.ofNat 8) with h3 | h3
    · subst h3
      rw [show escapeChar (Char.ofNat 8) = ['\\', 'b'] from by decide]
      simp [strStep_esc_b, ih]
    rcases eq_or_ne c (Char.ofNat 9) with h4 | h4
    · subst h4
      rw [show escapeChar (Char.ofNat 9) = ['\\', 't'] from by decide]
      simp [strStep_esc_t, ih]
    rcases eq_or_ne c (Char.ofNat 10) with h5 | h5
    · subst h5
      rw [show escapeChar (Char.ofNat 10) = ['\\', 'n'] from by decide]
      simp [strStep_esc_n, ih]
    rcases eq_or_ne c (Char.ofNat 12) with h6 | h6
    · subst h6
      rw [show escapeChar (Char.ofNat 12) = ['\\', 'f'] from by decide]
      simp [strStep_esc_f, ih]
    rcases eq_or_ne c (Char.ofNat 13) with h7 | h7
    · subst h7
      rw [show escapeChar (Char.ofNat 13) = ['\\', 'r'] from by decide]
      simp [strStep_esc_r, ih]
    rcases Nat.lt_or_ge c.toNat 32 with h8 | h8
    · have hdiv : c.toNat / 16 < 16 := by omega
      have hmod : c.toNat % 16 < 16 := by omega
      have hesc : escapeChar c
          = ['\\', 'u', '0', '0', hexDigitChar (c.toNat / 16), hexDigitChar (c.toNat % 16)] := by
        simp [escapeChar, h1, h2, h3, h4, h5, h6, h7, h8]
      rw [hesc]
      simp only [List.cons_append, List.nil_append]
      have e3 := hexVal_hexDigitChar (c.toNat / 16) hdiv
      have e4 := hexVal_hexDigitChar (c.toNat % 16) hmod
      have hlt : c.toNat / 16 * 16 + c.toNat % 16 < 55296 := by omega
      have hstep := strStep_esc_u (hexDigitChar (c.toNat / 16)) (hexDigitChar (c.toNat % 16))
        (escapeString cs ++ '"' :: rest) (c.toNat / 16) (c.toNat % 16) e3 e4 hlt
      have heq : c.toNat / 16 * 16 + c.toNat % 16 = c.toNat := by omega
      rw [heq, Char.ofNat_toNat] at hstep
      simp [hstep, ih]
    · have h8f : ¬ c.toNat < 32 := by omega
      have hesc : escapeChar c = [c] := by
        simp [escapeChar, h1, h2, h3, h4, h5, h6, h7, h8f]
      have hstep := strStep_plain c (escapeString cs ++ '"' :: rest) h1 h2 h8f
      rw [hesc, List.singleton_append]
      simp [hstep, ih]

lemma escapeChar_length_pos (c : Char) : 1 ≤ (escapeChar c).length := by
  simp only [escapeChar]
  repeat' split
  all_goals simp

lemma escapeString_length_ge : ∀ cs : List Char, cs.length ≤ (escapeString cs).length
  | [] => by simp [escapeString]
  | c :: cs => by
    have ih := escapeString_length_ge cs
    have h1 := escapeChar_length_pos c
    rw [show escapeString (c :: cs) = escapeChar c ++ escapeString cs from
      List.flatMap_cons c cs escapeChar]
    simp only [List.length_cons, List.length_append]
    omega

lemma parseStringBody_escape (cs rest : List Char) :
    parseStringBody (escapeString cs ++ ('"' :: rest)) = some (cs, rest) := by
  rw [parseStringBody]
  refine psbF_escape cs _ rest ?_
  have h1 := escapeString_length_ge cs
  simp only [List.length_append, List.length_cons]
  omega

lemma parseStringLit_quote (cs rest : List Char) :
    parseStringLit (quoteJson cs ++ rest) = some (cs, rest) := by
  have hq : quoteJson cs ++ rest = '"' :: (escapeString cs ++ ('"' :: rest)) := by
    simp [quoteJson]
  rw [hq]
  conv_lhs => rw [parseStringLit.eq_def]
  simp [parseStringBody_escape]

lemma toDecimalAux_zero (fuel : Nat) : toDecimalAux fuel 0 = [] := by
  cases fuel <;> rfl

lemma digitChar_ne_zero : ∀ r : Nat, r < 10 → 1 ≤ r → Char.ofNat (48 + r) ≠ '0' := by
  decide

lemma digitChar_not_ws : ∀ r : Nat, r < 10 → isJsonWs (Char.ofNat (48 + r)) = false := by
  decide

lemma toDecimalAux_head :
    ∀ (fuel n : Nat), 0 < n → n ≤ fuel →
      ∃ d tl, toDecimalAux fuel n = d :: tl ∧ d.isDigit = true ∧ d ≠ '0' ∧
        isJsonWs d = false := by
  intro fuel
  induction fuel with
  | zero => intro n h0 hf; omega
  | succ fuel ih =>
    intro n h0 hf
    cases n with
    | zero => omega
    | succ m =>
      by_cases hq : (m + 1) / 10 = 0
      · refine ⟨Char.ofNat (48 + (m + 1) % 10), [], ?_, ?_, ?_, ?_⟩
        · rw [toDecimalAux, hq, toDecimalAux_zero]
          rfl
        · exact digitChar_isDigit _ (Nat.mod_lt _ (by omega))
        · refine digitChar_ne_zero _ (Nat.mod_lt _ (by omega)) ?_
          have hlt : m + 1 < 10 := by omega
          have hmod : (m + 1) % 10 = m + 1 := Nat.mod_eq_of_lt hlt
          omega
        · exact digitChar_not_ws _ (Nat.mod_lt _ (by omega))
      · have hql : (m + 1) / 10 ≤ fuel := by
          have := Nat.div_lt_self (show 0 < m + 1 by omega) (show 1 < 10 by omega)
          omega
        obtain ⟨d, tl, hd, hdig, hne, hws⟩ := ih ((m + 1) / 10) (Nat.pos_of_ne_zero hq) hql
        refine ⟨d, tl ++ [Char.ofNat (48 + (m + 1) % 10)], ?_, hdig, hne, hws⟩
        rw [toDecimalAux, hd]
        rfl

lemma skipWs_cons (c : Char) (r : List Char) (h : isJsonWs c = false) :
    skipWs (c :: r) = c :: r := by
  conv_lhs => rw [skipWs.eq_def]
  simp [h]

lemma expectChar_cons (c : Char) (s : List Char) : expectChar c (c :: s) = some s := by
  conv_lhs => rw [expectChar.eq_def]
  simp

lemma skipWs_quoteJson (cs X : List Char) :
    skipWs (quoteJson cs ++ X) = quoteJson cs ++ X := by
  have h : quoteJson cs ++ X = '"' :: ((escapeString cs ++ ['"']) ++ X) := by
    simp [quoteJson]
  rw [h]
  exact skipWs_cons _ _ (by decide)

lemma skipWs_toDecimal (n : Nat) (X : List Char) :
    skipWs (toDecimal n ++ X) = toDecimal n ++ X := by
  by_cases h0 : n = 0
  · subst h0
    rw [show toDecimal 0 = ['0'] from rfl, List.singleton_append]
    exact skipWs_cons _ _ (by decide)
  · obtain ⟨d, tl, hd, _, _, hws⟩ := toDecimalAux_head n n (by omega) (le_refl n)
    rw [toDecimal, if_neg h0, hd, List.cons_append]
    exact skipWs_cons _ _ hws

lemma parseJsonNat_toDecimal (n : Nat) (c : Char) (rest : List Char)
    (hc : c.isDigit = false) :
    parseJsonNat (toDecimal n ++ c :: rest) = some (n, c :: rest) := by
  by_cases h0 : n = 0
  · subst h0
    rw [show toDecimal 0 = ['0'] from rfl, List.singleton_append]
    conv_lhs => rw [parseJsonNat.eq_def]
    simp
  · obtain ⟨d, tl, hd, hdig, hne, _⟩ := toDecimalAux_head n n (by omega) (le_refl n)
    rw [toDecimal, if_neg h0, hd, List.cons_append]
    conv_lhs => rw [parseJsonNat.eq_def]
    simp only [hne, if_false, hdig, if_true]
    rw [← List.cons_append, ← hd]
    rw [parseDigits_toDecimalAux n n (le_refl n)]
    simp only [Nat.zero_mul, Nat.zero_add]
    rw [parseDigits_stop _ _ _ hc]

lemma decodeStatus_name (st : TodoStatus) :
    decodeStatus (statusName st).data = some st := by
  cases st <;> decide

lemma objOpen_split : objOpenChunk = '\x7b' :: (quoteJson "id".data ++ [':']) := by decide

lemma contentChunk_split : contentChunk = ',' :: (quoteJson "content".data ++ [':']) := by
  decide

lemma statusChunk_split : statusChunk = ',' :: (quoteJson "status".data ++ [':']) := by
  decide

lemma objClose_split : objCloseChunk = ['\x7d'] := by decide

lemma skipWs_contentChunk_cons (X : List Char) :
    skipWs (contentChunk ++ X) = ',' :: (quoteJson "content".data ++ (':' :: X)) := by
  rw [contentChunk_split, List.cons_append, skipWs_cons _ _ (by decide)]
  simp [List.append_assoc]

lemma skipWs_statusChunk_cons (X : List Char) :
    skipWs (statusChunk ++ X) = ',' :: (quoteJson "status".data ++ (':' :: X)) := by
  rw [statusChunk_split, List.cons_append, skipWs_cons _ _ (by decide)]
  simp [List.append_assoc]

lemma skipWs_objClose_cons (X : List Char) : skipWs (objCloseChunk ++ X) = '\x7d' :: X := by
  rw [objClose_split, List.singleton_append, skipWs_cons _ _ (by decide)]

lemma serializeTodo_shape (t : Todo) (rest : List Char) :
    serializeTodo t ++ rest
      = '\x7b' :: (quoteJson "id".data ++ (':' :: (toDecimal t.id ++ (contentChunk
          ++ (quoteJson t.content.data ++ (statusChunk
          ++ (quoteJson (statusName t.status).data ++ (objCloseChunk ++ rest)))))))) := by
  rw [serializeTodo, objOpen_split]
  simp only [List.append_assoc, List.cons_append, List.singleton_append, List.nil_append]

lemma parseJsonNat_before_comma (n : Nat) (tail : List Char) :
    parseJsonNat (toDecimal n ++ (contentChunk ++ tail))
      = some (n, contentChunk ++ tail) := by
  have hshape : contentChunk ++ tail = ',' :: ("\"content\":".data ++ tail) := by
    rw [show contentChunk = ',' :: "\"content\":".data from by decide, List.cons_append]
  rw [hshape, parseJsonNat_toDecimal n ',' _ (by decide), ← hshape]

lemma parseMember_id (fuel : Nat) (acc : TodoFields) (hid : acc.id? = none)
    (n : Nat) (X : List Char) :
    parseMember fuel acc
        (quoteJson "id".data ++ (':' :: (toDecimal n ++ (contentChunk ++ X))))
      = some ({ acc with id? := some n }, contentChunk ++ X) := by
  simp only [parseMember]
  rw [parseStringLit_quote]
  simp only [Option.bind_eq_bind, Option.some_bind]
  rw [skipWs_cons ':' _ (by decide), expectChar_cons]
  simp only [Option.some_bind]
  rw [skipWs_toDecimal]
  simp [hid, parseJsonNat_before_comma]

lemma parseMember_content (fuel : Nat) (acc : TodoFields) (hc : acc.content? = none)
    (cs X : List Char) :
    parseMember fuel acc
        (quoteJson "content".data ++ (':' :: (quoteJson cs ++ (statusChunk ++ X))))
      = some ({ acc with content? := some (String.mk cs) }, statusChunk ++ X) := by
  simp only [parseMember]
  rw [parseStringLit_quote]
  simp only [Option.bind_eq_bind, Option.some_bind]
  rw [skipWs_cons ':' _ (by decide), expectChar_cons]
  simp only [Option.some_bind]
  rw [skipWs_quoteJson]
  simp [hc, parseStringLit_quote]

lemma parseMember_status (fuel : Nat) (acc : TodoFields) (hs : acc.status? = none)
    (st : TodoStatus) (X : List Char) :
    parseMember fuel acc
        (quoteJson "status".data ++ (':' :: (quoteJson (statusName st).data
          ++ (objCloseChunk ++ X))))
      = some ({ acc with status? := some st }, objCloseChunk ++ X) := by
  simp only [parseMember]
  rw [parseStringLit_quote]
  simp only [Option.bind_eq_bind, Option.some_bind]
  rw [skipWs_cons ':' _ (by decide), expectChar_cons]
  simp only [Option.some_bind]
  rw [skipWs_quoteJson]
  simp [hs, parseStringLit_quote, decodeStatus_name]

lemma parseTodoFields_canonical (t : Todo) (rest : List Char) (k : Nat) :
    parseTodoFields (k + 3) { id? := none, content? := none, status? := none }
        (quoteJson "id".data ++ (':' :: (toDecimal t.id ++ (contentChunk
          ++ (quoteJson t.content.data ++ (statusChunk
          ++ (quoteJson (statusName t.status).data ++ (objCloseChunk ++ rest))))))))
      = some (t, rest) := by
  have h1 := parseMember_id (k + 2) { id? := none, content? := none, status? := none } rfl
    t.id (quoteJson t.content.data ++ (statusChunk
      ++ (quoteJson (statusName t.status).data ++ (objCloseChunk ++ rest))))
  have h2 := parseMember_content (k + 1)
    { id? := some t.id, content? := none, status? := none } rfl t.content.data
    (quoteJson (statusName t.status).data ++ (objCloseChunk ++ rest))
  have h3 := parseMember_status k
    { id? := some t.id, content? := some (String.mk t.content.data), status? := none } rfl
    t.status rest
  have hmk : String.mk t.content.data = t.content := rfl
  rw [show k + 3 = Nat.succ (k + 2) from rfl]
  conv_lhs => rw [parseTodoFields.eq_def]
  simp only [h1, skipWs_contentChunk_cons, ite_true]
  rw [skipWs_quoteJson, show k + 2 = Nat.succ (k + 1) from rfl]
  conv_lhs => rw [parseTodoFields.eq_def]
  simp only [h2, skipWs_statusChunk_cons, ite_true]
  rw [skipWs_quoteJson, show k + 1 = Nat.succ k from rfl]
  conv_lhs => rw [parseTodoFields.eq_def]
  simp only [h3, skipWs_objClose_cons, ite_true]
  simp [hmk]

lemma parseTodoObj_step (fuel : Nat) (body : List Char) (c2 : Char) (r2 : List Char)
    (hbody : skipWs body = c2 :: r2) (h2 : c2 ≠ '\x7d') :
    parseTodoObj fuel ('\x7b' :: body)
      = parseTodoFields fuel { id? := none, content? := none, status? := none }
          (c2 :: r2) := by
  conv_lhs => rw [parseTodoObj.eq_def]
  simp [hbody, h2]

lemma parseTodoObj_serialize (t : Todo) (rest : List Char) (fuel : Nat) (hf : 3 ≤ fuel) :
    parseTodoObj fuel (serializeTodo t ++ rest) = some (t, rest) := by
  obtain ⟨k, rfl⟩ : ∃ k, fuel = k + 3 := ⟨fuel - 3, by omega⟩
  rw [serializeTodo_shape]
  obtain ⟨Q, hQ⟩ : ∃ Q, quoteJson "id".data ++ (':' :: (toDecimal t.id ++ (contentChunk
      ++ (quoteJson t.content.data ++ (statusChunk
      ++ (quoteJson (statusName t.status).data ++ (objCloseChunk ++ rest))))))) = '"' :: Q := by
    rw [show quoteJson "id".data = '"' :: (escapeString "id".data ++ ['"']) from rfl,
      List.cons_append]
    exact ⟨_, rfl⟩
  rw [hQ, parseTodoObj_step (k + 3) ('"' :: Q) '"' Q (skipWs_cons _ _ (by decide)) (by decide),
    ← hQ]
  exact parseTodoFields_canonical t rest k

lemma serializeTodo_cons (t : Todo) :
    serializeTodo t = '\x7b' :: ("\"id\":".data ++ (toDecimal t.id ++ (contentChunk
      ++ (quoteJson t.content.data ++ (statusChunk
      ++ (quoteJson (statusName t.status).data ++ objCloseChunk)))))) := by
  rw [serializeTodo,
    show objOpenChunk = '\x7b' :: "\"id\":".data from by decide]
  simp [List.append_assoc]

lemma serializeTodo_length_ge (t : Todo) : 8 ≤ (serializeTodo t).length := by
  rw [serializeTodo_cons]
  simp only [List.length_cons, List.length_append]
  have h2 : contentChunk.length = 11 := by decide
  have h3 : statusChunk.length = 10 := by decide
  have h4 : objCloseChunk.length = 1 := by decide
  omega

lemma serializeItems_head (t : Todo) (ts : List Todo) :
    ∃ q, serializeItems (t :: ts) = '\x7b' :: q := by
  cases ts with
  | nil =>
    rw [show serializeItems [t] = serializeTodo t from rfl, serializeTodo_cons]
    exact ⟨_, rfl⟩
  | cons t2 ts2 =>
    rw [show serializeItems (t :: t2 :: ts2)
        = serializeTodo t ++ (',' :: serializeItems (t2 :: ts2)) from rfl,
      serializeTodo_cons, List.cons_append]
    exact ⟨_, rfl⟩

lemma serializeItems_length_ge :
    ∀ ts : List Todo, ts ≠ [] → ts.length + 7 ≤ (serializeItems ts).length
  | [], h => absurd rfl h
  | [t], _ => by
    rw [show serializeItems [t] = serializeTodo t from rfl]
    have h1 := serializeTodo_length_ge t
    simp only [List.length_cons, List.length_nil]
    omega
  | t :: t2 :: ts, _ => by
    have ih := serializeItems_length_ge (t2 :: ts) (by simp)
    have h1 := serializeTodo_length_ge t
    rw [show serializeItems (t :: t2 :: ts)
        = serializeTodo t ++ (',' :: serializeItems (t2 :: ts)) from rfl]
    simp only [List.length_append, List.length_cons] at ih ⊢
    omega

lemma parseItems_serialize :
    ∀ (ts : List Todo) (fuel : Nat) (rest : List Char), ts ≠ [] → ts.length + 3 ≤ fuel →
      parseItems fuel (serializeItems ts ++ (']' :: rest)) = some (ts, rest)
  | [], _, _, h, _ => absurd rfl h
  | [t], fuel, rest, _, hf => by
    obtain ⟨f, rfl⟩ : ∃ f, fuel = f + 1 := ⟨fuel - 1, by omega⟩
    rw [show serializeItems [t] = serializeTodo t from rfl]
    have hobj := parseTodoObj_serialize t (']' :: rest) f
      (by simp only [List.length_cons, List.length_nil] at hf; omega)
    rw [show f + 1 = Nat.succ f from rfl]
    conv_lhs => rw [parseItems.eq_def]
    simp [hobj, skipWs_cons ']' rest (by decide)]
  | t :: t2 :: ts, fuel, rest, _, hf => by
    obtain ⟨f, rfl⟩ : ∃ f, fuel = f + 1 :=
      ⟨fuel - 1, by simp only [List.length_cons] at hf; omega⟩
    have ih := parseItems_serialize (t2 :: ts) f rest (by simp)
      (by simp only [List.length_cons] at hf ⊢; omega)
    rw [show serializeItems (t :: t2 :: ts)
        = serializeTodo t ++ (',' :: serializeItems (t2 :: ts)) from rfl]
    rw [List.append_assoc, List.cons_append]
    have hobj := parseTodoObj_serialize t
      (',' :: (serializeItems (t2 :: ts) ++ (']' :: rest))) f
      (by simp only [List.length_cons] at hf; omega)
    obtain ⟨q, hq⟩ := serializeItems_head t2 ts
    rw [hq] at ih hobj ⊢
    simp only [List.cons_append] at ih hobj ⊢
    rw [show f + 1 = Nat.succ f from rfl]
    conv_lhs => rw [parseItems.eq_def]
    simp only [hobj, skipWs_cons ',' _ (by decide), ite_true]
    rw [skipWs_cons '\x7b' _ (by decide)]
    simp [ih]

lemma parseTodosChars_serialize (ts : List Todo) :
    parseTodosChars (serializeTodos ts) = some ts := by
  cases ts with
  | nil => decide
  | cons t ts2 =>
    have hfuel : (t :: ts2).length + 3 ≤ ('[' :: (serializeItems (t :: ts2) ++ [']'])).length := by
      have hlen := serializeItems_length_ge (t :: ts2) (by simp)
      simp only [List.length_cons, List.length_append, List.length_nil] at hlen ⊢
      omega
    have hitems := parseItems_serialize (t :: ts2)
      (('[' :: (serializeItems (t :: ts2) ++ [']'])).length) [] (by simp) hfuel
    obtain ⟨q, hq⟩ := serializeItems_head t ts2
    rw [show serializeTodos (t :: ts2) = '[' :: (serializeItems (t :: ts2) ++ [']'])
      from rfl]
    rw [hq] at hitems ⊢
    simp only [List.cons_append] at hitems ⊢
    conv_lhs => rw [parseTodosChars.eq_def]
    rw [skipWs_cons '[' _ (by decide)]
    simp only [List.length_cons, List.length_append, List.length_nil] at hitems ⊢
    rw [skipWs_cons '\x7b' _ (by decide)]
    simp [hitems, show skipWs [] = [] from rfl]

lemma parseTodos_serialize (ts : List Todo) :
    parseTodos (String.mk (serializeTodos ts)) = some ts := by
  show parseTodosChars (serializeTodos ts) = some ts
  exact parseTodosChars_serialize ts

lemma serializeTodos_not_ws (ts : List Todo) :
    ((String.mk (serializeTodos ts)).data.all rustIsWhitespace) = false := by
  show ((serializeTodos ts).all rustIsWhitespace) = false
  rw [show serializeTodos ts = '[' :: (serializeItems ts ++ [']']) from rfl]
  have hbr : rustIsWhitespace '[' = false := by decide
  simp [List.all_cons, hbr]

lemma load_parse (path : String) (s : String)
    (hws : (s.data.all rustIsWhitespace) = false) (ts : List Todo)
    (hp : parseTodos s = some ts) :
    JsonStorage.load path (some s) = Except.ok ts := by
  simp only [JsonStorage.load, hws]
  simp [hp]

/-- C7: a successful `save` followed by a `load` from the same location
returns a task sequence equal to the saved one by id, content, status and
order — serialize-then-parse is the identity on task sequences. -/
theorem claim7_roundtrip (ts : List Todo) (path : String) (file : Option String)
    (h : (JsonStorage.save ts path file).2 = Except.ok ()) :
    JsonStorage.load path (JsonStorage.save ts path file).1 = Except.ok ts := by
  cases file with
  | none => simp [JsonStorage.save] at h
  | some prior =>
    have hfst : (JsonStorage.save ts path (some prior)).1
        = some (String.mk (serializeTodos ts)) := rfl
    rw [hfst]
    exact load_parse path _ (serializeTodos_not_ws ts) ts (parseTodos_serialize ts)

/-- Witness for `claim7_roundtrip`: a two-task sequence whose content
exercises the JSON escaping (quote and backslash). -/
theorem claim7_roundtrip_witness :
    (JsonStorage.save [Todo.mk 1 "a\"b\\c" TodoStatus.Done, Todo.new 2 "d"] "t.json"
        (some "old")).2 = Except.ok () ∧
    JsonStorage.load "t.json"
        (JsonStorage.save [Todo.mk 1 "a\"b\\c" TodoStatus.Done, Todo.new 2 "d"] "t.json"
          (some "old")).1
      = Except.ok [Todo.mk 1 "a\"b\\c" TodoStatus.Done, Todo.new 2 "d"] :=
  ⟨rfl, claim7_roundtrip [Todo.mk 1 "a\"b\\c" TodoStatus.Done, Todo.new 2 "d"] "t.json"
    (some "old") rfl⟩

/-- C10: `save` opens the file for writing with truncation but without
creation, so at a location with no file it fails with `FileError` carrying
that location and the location still holds no file afterwards; at an
existing file it replaces the contents with the serialized array. -/
theorem claim10_save_no_create (ts : List Todo) (path : String) :
    JsonStorage.save ts path none
      = (none, Except.error (TodoStorageError.FileError path)) ∧
    (∀ prior : String, JsonStorage.save ts path (some prior)
      = (some (String.mk (serializeTodos ts)), Except.ok ())) :=
  ⟨rfl, fun _ => rfl⟩

/-- C9, counterexample: on the todo `{id 42, content "Learn Rust", Done}`
the code renders `[x] Learn Rust           [Done] (ID: 42)`: the content
column is padded to 20 as claimed, but the status column is not padded to 12
— the `{:<12?}` width in the format string is ignored by the derived `Debug`
impl, which writes the bare variant name with `write_str`. `specDisplay` is
the line the claim's sentence describes (status padded to 12, content
padded/truncated to 20); the two renderings differ at this input. -/
theorem claim9_counterexample :
    Todo.display { id := 42, content := "Learn Rust", status := TodoStatus.Done }
      ≠ specDisplay { id := 42, content := "Learn Rust", status := TodoStatus.Done } := by
  decide

/-- C9, amended: rendering produces exactly
`[<tick>] <content, left-aligned, padded to at least 20, never truncated>
[<status, unpadded>] (ID: <id>)`, and the tick character (position 1 of the
line) is `x` if and only if the status is `Done`. -/
theorem claim9_display (t : Todo) :
    Todo.display t
      = "[" ++ (if t.status = TodoStatus.Done then "x" else " ") ++ "] "
        ++ (t.content ++ String.mk (List.replicate (20 - t.content.length) ' '))
        ++ " [" ++ statusName t.status ++ "] (ID: "
        ++ String.mk (toDecimal t.id) ++ ")" ∧
    ((Todo.display t).data[1]? = some 'x' ↔ t.status = TodoStatus.Done) := by
  constructor
  · rfl
  · cases htst : t.status <;>
      simp [Todo.display, fmtLeftAligned, statusDebug, htst, String.data_append]
